import Mathlib

/-!
Verification development for the Playoff-Challenge repository.

The client code is TypeScript; numeric values coming from the database are
decimal numbers, modelled here as rationals (`ℚ`).  Machine specifics of
IEEE floats are out of scope: every quantity the pages manipulate is either
a small integer or a decimal score, both of which embed exactly in `ℚ`.
-/

namespace PlayoffChallenge

/-- JavaScript `Math.round`: round to nearest, halves towards `+∞`,
i.e. `⌊x + 1/2⌋`. -/
def jsRound (q : ℚ) : ℤ := ⌊q + 1 / 2⌋

/-- From `src/app/my-team/page.tsx` (`computeMultiplierFromScore`):
derive the display multiplier of a settled roster-spot score row from its
stored `base_points` and `multiplied_points`. -/
def computeMultiplierFromScore (base total : ℚ) : ℤ :=
  if base = 0 then 1
  else
    let rounded := jsRound (total / base)
    if rounded < 1 then 1
    else if rounded > 6 then 6
    else rounded

/-- From `src/app/team/[username]/page.tsx` (`computeMultiplier`):
identical derivation used on the public team-view page. -/
def computeMultiplier (base total : ℚ) : ℤ :=
  if base = 0 then 1
  else
    let rounded := jsRound (total / base)
    if rounded < 1 then 1
    else if rounded > 6 then 6
    else rounded

/-- Eligibility of a team for the selected round, from
`src/app/my-team/page.tsx` (`isTeamEligible`): empty team string is never
eligible; when no `teams_in_round` rows exist (`activeTeams = none`) every
team is eligible; otherwise membership in the active set (uppercased). -/
def isTeamEligible (activeTeams : Option (List String)) (team : String) : Bool :=
  if team = "" then false
  else
    match activeTeams with
    | none => true
    | some l => l.contains team.toUpper

/-- Number of consecutive rounds, starting at round `rn` and walking down
towards round 1, in which the player is present (`present`).  This is the
inner loop of `buildPrevStreakMap` in `src/app/my-team/page.tsx`. -/
def consecFrom (present : ℕ → Bool) : ℕ → ℕ
  | 0 => 0
  | n + 1 => if present (n + 1) then consecFrom present n + 1 else 0

/-- From `src/app/my-team/page.tsx` (`buildPrevStreakMap`): the value the
streak map stores for one player whose per-round roster membership is
`present`, when the selected open round has number `r`.  `none` means the
map holds no entry for the player (round 1, or absent from round `r - 1`). -/
def buildPrevStreakEntry (present : ℕ → Bool) (r : ℕ) : Option ℕ :=
  if r ≤ 1 then none
  else if present (r - 1) then
    some (min 6 (max 1 (consecFrom present (r - 2) + 1)))
  else none

/-- From `src/app/my-team/page.tsx` (the `previewMultBySlot` effect): the
live preview multiplier of one slot, given the selected player id for the
slot, the player lookup (team of each known player), the active-team set and
the streak map. -/
def previewMultForSlot (lineupPid : Option ℕ) (playerTeam : ℕ → Option String)
    (activeTeams : Option (List String)) (prevStreak : ℕ → Option ℕ) : ℕ :=
  match lineupPid with
  | none => 1
  | some pid =>
    match playerTeam pid with
    | none => 1
    | some team =>
      if isTeamEligible activeTeams team then
        let s := (prevStreak pid).getD 0
        if s > 0 then min 6 (s + 1) else 1
      else 1

/-- From `src/app/leaderboard/page.tsx` (`displayRows`, predictor tab):
given the displayed users' total points, compute each user's net dollars:
the group average is `sum / N` (with `N = length || 1`), and
`netDollars = (total - avg) / 100`. -/
def netDollarsList (totals : List ℚ) : List ℚ :=
  let n : ℚ := if totals.length = 0 then 1 else (totals.length : ℚ)
  let avg := totals.sum / n
  totals.map (fun t => (t - avg) / 100)

/-- The `kickoff_at` column as the client sees it after `new Date(...)`:
either SQL `null`, a string that parses to `NaN` (`getTime()` not finite),
or a parseable timestamp in epoch milliseconds. -/
inductive Kickoff where
  | null : Kickoff
  | unparseable : Kickoff
  | at : ℤ → Kickoff
deriving DecidableEq

/-- From `src/unnamed/part_001` and `src/app/predict/[username]/page.tsx`
(`isGameLocked`): a game is locked exactly when its kickoff parses to a
finite time that is `≤ Date.now()`; a null or unparseable kickoff is never
locked. -/
def isGameLocked (k : Kickoff) (now : ℤ) : Bool :=
  match k with
  | .null => false
  | .unparseable => false
  | .at t => decide (t ≤ now)

/-- A predictor game as the predictor pages see it: an id and a kickoff. -/
structure PGame where
  gid : ℕ
  kickoff : Kickoff
deriving DecidableEq

/-- From `src/app/predict/[username]/page.tsx` (the per-game render): the
viewed user's entry for a game is revealed only when the game is locked;
before kickoff the card shows placeholders. -/
def revealedEntry (g : PGame) (now : ℤ) (entry : Option (ℕ × ℕ)) :
    Option (ℕ × ℕ) :=
  if isGameLocked g.kickoff now then entry else none

/-- From `src/unnamed/part_001` (the pick `<input>` fields): an input is
disabled exactly when its game is locked. -/
def pickInputDisabled (g : PGame) (now : ℤ) : Bool :=
  isGameLocked g.kickoff now

/-- The state of one game's two score inputs: each field is either the empty
string (`none`) or a numeric string, modelled by its numeric value `Number(s)`
as an exact rational. -/
structure Pick where
  away : Option ℚ
  home : Option ℚ
deriving DecidableEq

/-- From `src/unnamed/part_001` / `src/unnamed/part_002` (`hasAnyInvalid`,
per-pick body): a pick is invalid when exactly one side is filled, or when a
filled value is not an integer (`Number.isInteger`, here denominator 1) in
the range `0..99`. -/
def pickInvalid (p : Pick) : Bool :=
  match p.away, p.home with
  | none, none => false
  | some _, none => true
  | none, some _ => true
  | some a, some h =>
    decide (a.den ≠ 1 ∨ h.den ≠ 1 ∨ a < 0 ∨ h < 0 ∨ 99 < a ∨ 99 < h)

/-- From `src/unnamed/part_001` (`hasAnyInvalid`): scan the round's games,
skipping locked games and games without a pick state. -/
def hasAnyInvalid (games : List PGame) (picks : ℕ → Option Pick) (now : ℤ) :
    Bool :=
  games.any fun g =>
    if isGameLocked g.kickoff now then false
    else
      match picks g.gid with
      | none => false
      | some p => pickInvalid p

/-- JavaScript `Number` of a possibly-empty field: `Number("") = 0`. -/
def numOrZero : Option ℚ → ℚ
  | none => 0
  | some a => a

/-- One row of the `predictor_entries` upsert built by `saveAll`. -/
structure UpsertRow where
  game_id : ℕ
  user_id : ℕ
  away_score_pred : ℚ
  home_score_pred : ℚ
deriving DecidableEq

/-- From `src/unnamed/part_001` (`saveAll`, the upsert-building loop): build
one upsert row per unlocked game whose pick state is not entirely blank. -/
def saveAllRows (games : List PGame) (picks : ℕ → Option Pick) (uid : ℕ)
    (now : ℤ) : List UpsertRow :=
  games.filterMap fun g =>
    if isGameLocked g.kickoff now then none
    else
      match picks g.gid with
      | none => none
      | some p =>
        match p.away, p.home with
        | none, none => none
        | _, _ => some ⟨g.gid, uid, numOrZero p.away, numOrZero p.home⟩

/-- The validation error shown by `saveAll`. -/
def saveErrorMsg : String :=
  "Please fix invalid picks (both scores required, whole numbers 0-99)."

/-- From `src/unnamed/part_001` (`saveAll`): validate first; on any invalid
pick show an error and write nothing, otherwise upsert the built rows. -/
def saveAll (games : List PGame) (picks : ℕ → Option Pick) (uid : ℕ)
    (now : ℤ) : Except String (List UpsertRow) :=
  if hasAnyInvalid games picks now then Except.error saveErrorMsg
  else Except.ok (saveAllRows games picks uid now)

/-- From `src/unnamed/part_002` (`hasAnyInvalid`): the round-lock variant
scans every game of the round (no per-game lock skip). -/
def hasAnyInvalidRoundMode (games : List PGame) (picks : ℕ → Option Pick) :
    Bool :=
  games.any fun g =>
    match picks g.gid with
    | none => false
    | some p => pickInvalid p

/-- From `src/unnamed/part_002` (`saveAll`, upsert-building loop): rows for
every game whose pick state is not entirely blank. -/
def saveRowsRoundMode (games : List PGame) (picks : ℕ → Option Pick)
    (uid : ℕ) : List UpsertRow :=
  games.filterMap fun g =>
    match picks g.gid with
    | none => none
    | some p =>
      match p.away, p.home with
      | none, none => none
      | _, _ => some ⟨g.gid, uid, numOrZero p.away, numOrZero p.home⟩

/-- From `src/unnamed/part_002` (`saveAll`): the round-lock variant returns
immediately, touching nothing, when the selected round is predictor-locked
(`none` = no write and no message). -/
def saveAllRoundMode (predLocked : Bool) (games : List PGame)
    (picks : ℕ → Option Pick) (uid : ℕ) :
    Option (Except String (List UpsertRow)) :=
  if predLocked then none
  else if hasAnyInvalidRoundMode games picks then some (Except.error saveErrorMsg)
  else some (Except.ok (saveRowsRoundMode games picks uid))

/-- Effect of the `predictor_entries` upsert (`onConflict: game_id,user_id`)
on a table keyed by `(game_id, user_id)`. -/
def applyUpserts (db : ℕ → ℕ → Option (ℚ × ℚ)) (rows : List UpsertRow) :
    ℕ → ℕ → Option (ℚ × ℚ) :=
  rows.foldl
    (fun d r => fun g u =>
      if g = r.game_id ∧ u = r.user_id then
        some (r.away_score_pred, r.home_score_pred)
      else d g u)
    db

/-- One `roster_players` row of the previous round's roster. -/
structure PrevRosterRow where
  slot : String
  player_id : Option ℕ
deriving DecidableEq

/-- One row of the `roster_players` upsert written into the new roster. -/
structure CopiedRow where
  roster_id : ℕ
  slot : String
  player_id : Option ℕ
deriving DecidableEq

/-- From `src/app/my-team/page.tsx` (`tryAutoCopyFromPreviousRound`, the
`upsertRows` mapping): copy one previous-round slot into the new roster,
keeping the player only if it still exists in the players table
(`playersTeam pid = some team`) and its team is eligible for the new
round. -/
def autoCopyRow (playersTeam : ℕ → Option String)
    (activeTeams : Option (List String)) (newRosterId : ℕ)
    (row : PrevRosterRow) : CopiedRow :=
  { roster_id := newRosterId
    slot := row.slot
    player_id :=
      match row.player_id with
      | none => none
      | some pid =>
        match playersTeam pid with
        | none => none
        | some team =>
          if isTeamEligible activeTeams team then some pid else none }

/-- From `src/app/my-team/page.tsx` (`tryAutoCopyFromPreviousRound`): the
auto-copy is a no-op (`none`) when the selected round is round 1, when no
round with number `curRoundNumber - 1` exists, when the user has no roster
for that previous round (`prevRosterRows = none`), or when that roster has
no rows; otherwise the previous rows are mapped through `autoCopyRow` and
upserted. -/
def tryAutoCopyFromPreviousRound (curRoundNumber : ℕ) (prevRoundExists : Bool)
    (prevRosterRows : Option (List PrevRosterRow))
    (playersTeam : ℕ → Option String) (activeTeams : Option (List String))
    (newRosterId : ℕ) : Option (List CopiedRow) :=
  if curRoundNumber ≤ 1 then none
  else if !prevRoundExists then none
  else
    match prevRosterRows with
    | none => none
    | some rows =>
      if rows.isEmpty then none
      else some (rows.map (autoCopyRow playersTeam activeTeams newRosterId))

/-- From `src/app/my-team/page.tsx` (`loadRosterForRound`): the auto-copy is
attempted only when no roster row exists yet for (user, round); a new roster
is inserted first and the previous round is copied into it. -/
def loadRosterAutoCopy (existingRoster : Option ℕ) (curRoundNumber : ℕ)
    (prevRoundExists : Bool) (prevRosterRows : Option (List PrevRosterRow))
    (playersTeam : ℕ → Option String) (activeTeams : Option (List String))
    (newRosterId : ℕ) : Option (List CopiedRow) :=
  match existingRoster with
  | some _ => none
  | none =>
    tryAutoCopyFromPreviousRound curRoundNumber prevRoundExists prevRosterRows
      playersTeam activeTeams newRosterId

/-- Previous-round roster rows used as concrete witness data. -/
def exPrevRows : List PrevRosterRow :=
  [⟨"QB", some 7⟩, ⟨"K", some 9⟩, ⟨"TE", none⟩]

/-- Player-team lookup used as concrete witness data: player 7 exists and
plays for KC, player 9 no longer exists. -/
def exPT : ℕ → Option String := fun pid => if pid = 7 then some "KC" else none

/-- One predictor entry of one game: the entering user and the predicted
away/home final scores. -/
structure PredEntry where
  user : ℕ
  awayPred : ℕ
  homePred : ℕ
deriving DecidableEq

/-- Modelled from the spec: the winner encoded by a score pair (`§4.4`,
`recalc_predictor_points_for_round` is a database routine not present under
`src/`).  `some true` = away wins, `some false` = home wins, `none` = tie
(no winner). -/
def predWinner (a h : ℕ) : Option Bool :=
  if a > h then some true else if h > a then some false else none

/-- Modelled from the spec: an entry is correct when its predicted winner
(the side with the higher predicted score; a predicted tie is always
incorrect) matches the actual winner of the final score. -/
def entryCorrect (fa fh : ℕ) (e : PredEntry) : Bool :=
  match predWinner e.awayPred e.homePred with
  | none => false
  | some s => predWinner fa fh = some s

/-- Modelled from the spec (`§4.4`, WinnerPointsCalculator, a database
routine not present under `src/`): winner points of one entry, where `n` is
the game's total entry count and `c` the count of correct entries.  `c = 0`
gives 0 to everyone; a correct majority (`c / n ≥ 1/2`) gives each correct
entry 100; a correct minority gives each correct entry `(n - c) * 100 / c`;
incorrect entries always get 0. -/
def winnerPointsFor (entries : List PredEntry) (fa fh : ℕ) (e : PredEntry) :
    ℚ :=
  let n := entries.length
  let c := (entries.filter (entryCorrect fa fh)).length
  if entryCorrect fa fh e = false then 0
  else if c = 0 then 0
  else if n ≤ 2 * c then 100
  else ((n : ℚ) - c) * 100 / c

/-- Modelled from the spec (`§4.5`): the three-part ranking key of an entry,
ascending lexicographically: total error, spread error, total-points
error. -/
def errKey (fa fh : ℕ) (e : PredEntry) : ℕ × ℕ × ℕ :=
  (((e.awayPred : ℤ) - fa).natAbs + ((e.homePred : ℤ) - fh).natAbs,
   (((e.awayPred : ℤ) - e.homePred) - ((fa : ℤ) - fh)).natAbs,
   (((e.awayPred : ℤ) + e.homePred) - ((fa : ℤ) + fh)).natAbs)

/-- Lexicographic comparison of ranking keys (lower is better). -/
def keyLe (k1 k2 : ℕ × ℕ × ℕ) : Bool :=
  decide (k1.1 < k2.1 ∨ (k1.1 = k2.1 ∧
    (k1.2.1 < k2.2.1 ∨ (k1.2.1 = k2.2.1 ∧ k1.2.2 ≤ k2.2.2))))

/-- Insert an element into a list ordered by `le`. -/
def insertBy {α : Type} (le : α → α → Bool) (x : α) : List α → List α
  | [] => [x]
  | y :: ys => if le x y then x :: y :: ys else y :: insertBy le x ys

/-- Insertion sort by `le`. -/
def sortBy {α : Type} (le : α → α → Bool) : List α → List α
  | [] => []
  | x :: xs => insertBy le x (sortBy le xs)

/-- Modelled from the spec (`§4.5`): the accuracy-pot percentage tables,
`K = 1..4`; the table is only defined for those winner counts. -/
def splitTable : ℕ → List ℚ
  | 1 => [100]
  | 2 => [60, 40]
  | 3 => [45, 33, 22]
  | 4 => [40, 30, 20, 10]
  | _ => []

/-- Modelled from the spec (`§4.5`): walk the ranked list in tie groups
(maximal runs of equal keys); a group occupying ranks
`r, r+1, ..., r+len-1` shares the summed per-rank amounts `pct` of those
ranks equally among its members, and later groups shift down by the ranks
consumed. -/
def distributeShares {α : Type} (pct : ℕ → ℚ) (key : α → ℕ × ℕ × ℕ) :
    ℕ → List α → List (α × ℚ)
  | _, [] => []
  | r, x :: xs =>
    let grp := x :: xs.takeWhile (fun y => key y = key x)
    let rest := xs.dropWhile (fun y => key y = key x)
    let share := (∑ i ∈ Finset.Ico r (r + grp.length), pct i) / grp.length
    grp.map (fun y => (y, share)) ++
      distributeShares pct key (r + grp.length) rest
termination_by _ l => l.length
decreasing_by
  simp_wf
  have h := (List.dropWhile_sublist (fun y => key y = key x) (l := xs)).length_le
  omega

/-- Modelled from the spec (`§4.5`, AccuracyPotCalculator, a database
routine not present under `src/`): `K = ⌊N/2⌋` winners share a pot of
`(N - K) * 100` points; entries are ranked ascending by the three-part
error key, rank `i` (0-based) carries `pot * splitTable K [i] / 100`
points (ranks `≥ K` carry nothing), and tie groups split their ranks'
amounts equally. -/
def accuracyDistribution (entries : List PredEntry) (fa fh : ℕ) :
    List (PredEntry × ℚ) :=
  let n := entries.length
  let k := n / 2
  let pot : ℚ := ((n : ℚ) - k) * 100
  distributeShares (fun i => pot * (splitTable k).getD i 0 / 100)
    (errKey fa fh) 0
    (sortBy (fun a b => keyLe (errKey fa fh a) (errKey fa fh b)) entries)

/-- Modelled from the spec (`§4.6`, JackpotCalculator, a database routine
not present under `src/`): with `p` perfect entries out of `n`, each perfect
entry earns `400 * (n - p)`; others earn 0. -/
def jackpotFor (entries : List PredEntry) (fa fh : ℕ) (e : PredEntry) : ℚ :=
  let n := entries.length
  let p := (entries.filter
    (fun x => decide (x.awayPred = fa ∧ x.homePred = fh))).length
  if e.awayPred = fa ∧ e.homePred = fh then 400 * ((n : ℚ) - p) else 0

/-- The accuracy-pot amount a given user receives for a game. -/
def accAmountForUser (entries : List PredEntry) (fa fh u : ℕ) : ℚ :=
  match (accuracyDistribution entries fa fh).find? (fun z => z.1.user = u) with
  | none => 0
  | some z => z.2

/-- One predictor game as the settlement engine sees it: id, finality flag,
final scores, round weight and the game's entries. -/
structure GameRec where
  gid : ℕ
  isFin : Bool
  finalA : ℕ
  finalH : ℕ
  weight : ℚ
  entries : List PredEntry

/-- Modelled from the spec (`§4.4`-`§4.7`): the stored `predictor_points`
row of one user for one finalized game, `(base_points, weighted_points)`
with `base = winner + accuracy + jackpot` and `weighted = base * weight`. -/
def computeRow (g : GameRec) (u : ℕ) : Option (ℚ × ℚ) :=
  match g.entries.find? (fun e => e.user = u) with
  | none => none
  | some e =>
    let base := winnerPointsFor g.entries g.finalA g.finalH e
      + accAmountForUser g.entries g.finalA g.finalH u
      + jackpotFor g.entries g.finalA g.finalH e
    some (base, base * g.weight)

/-- Modelled from the spec (`§4.1`-`§4.2`, settlement side): the multiplier
used when settling a slot for round `r`, `clamp(prior streak + 1, 1, 6)`. -/
def settleMultiplier (present : ℕ → Bool) (r : ℕ) : ℕ :=
  min 6 (max 1 (consecFrom present (r - 1) + 1))

/-- Modelled from the spec (`§4.3`, FantasyScoreAggregator, a database
routine not present under `src/`): the stored `roster_spot_scores` row of a
slot: `(base_points, multiplied_points)`; empty or ineligible slots give
`(0, 0)`. -/
def computeSpotScore (rosterOf : ℕ → String → Option ℕ) (eligible : ℕ → Bool)
    (statLine : ℕ → ℚ) (presentIn : ℕ → ℕ → ℕ → Bool) (r u : ℕ)
    (slot : String) : ℚ × ℚ :=
  match rosterOf u slot with
  | none => (0, 0)
  | some pid =>
    if eligible pid then
      (statLine pid, statLine pid * (settleMultiplier (presentIn u pid) r : ℚ))
    else (0, 0)

/-- Modelled from the spec (`§4.8`): the persisted state the settlement
engine reads and writes.  Inputs (games with entries, rosters, stat lines,
eligibility, roster history, round number) are owned by others; the derived
rows `points` (per game and user) and `spotScores` (per user and slot) are
owned by the engine. -/
structure EngineState where
  games : List GameRec
  rosterOf : ℕ → String → Option ℕ
  eligible : ℕ → Bool
  statLine : ℕ → ℚ
  presentIn : ℕ → ℕ → ℕ → Bool
  roundNum : ℕ
  points : ℕ → ℕ → Option (ℚ × ℚ)
  spotScores : ℕ → String → Option (ℚ × ℚ)

/-- Modelled from the spec (`§4.8`, SettlementOrchestrator, the
`recalc_predictor_points_for_round` database routine invoked by
`src/app/admin/predictor/page.tsx` but not present under `src/`): one
recalculation pass.  Every finalized game's predictor rows are wholesale
overwritten from current inputs; rows of non-finalized or unknown games are
left untouched; all roster spot scores are wholesale overwritten. -/
def recalc (s : EngineState) : EngineState :=
  { s with
    points := fun gi u =>
      match s.games.find? (fun g => g.gid = gi) with
      | none => s.points gi u
      | some g => if g.isFin then computeRow g u else s.points gi u
    spotScores := fun u slot =>
      some (computeSpotScore s.rosterOf s.eligible s.statLine s.presentIn
        s.roundNum u slot) }

/-- The worked seven-entry game from the spec (`§8`), final score 21-17:
entries 1 and 2 predict the away side (correct, a minority of 2 of 7), all
ranking keys distinct. -/
def exEntries : List PredEntry :=
  [⟨1, 24, 14⟩, ⟨2, 20, 17⟩, ⟨3, 10, 20⟩, ⟨4, 17, 21⟩, ⟨5, 0, 3⟩,
   ⟨6, 14, 14⟩, ⟨7, 13, 27⟩]

/-- A two-game round used as concrete witness data: game 1 kicks off at
time 100 (still open at time 0), game 2 kicked off at time -50 (locked). -/
def exGames : List PGame := [⟨1, Kickoff.at 100⟩, ⟨2, Kickoff.at (-50)⟩]

/-- Concrete pick states for the witness round. -/
def exPicks : ℕ → Option Pick := fun g =>
  if g = 1 then some ⟨some 3, some 7⟩ else some ⟨some 10, some 20⟩

end PlayoffChallenge

namespace PlayoffChallenge

/-- Summing `(t - a) / 100` over a list. -/
theorem sum_map_sub_div (l : List ℚ) (a : ℚ) :
    (l.map (fun t => (t - a) / 100)).sum = (l.sum - l.length * a) / 100 := by
  induction l with
  | nil => simp
  | cons x xs ih =>
    simp only [List.map_cons, List.sum_cons, ih, List.length_cons]
    push_cast
    ring

/-- C1 -- For a settled round, the multiplier derived for display equals 1
when `base_points` is 0, and otherwise equals `multiplied_points / base_points`
rounded to the nearest integer and clamped to `[1, 6]`; it is always an
integer between 1 and 6, and the two copies of the derivation (my-team page
and team-view page) agree. -/
theorem computeMultiplierFromScore_spec (base total : ℚ) :
    computeMultiplierFromScore base total =
      (if base = 0 then 1 else max 1 (min 6 (jsRound (total / base)))) ∧
    1 ≤ computeMultiplierFromScore base total ∧
    computeMultiplierFromScore base total ≤ 6 ∧
    computeMultiplier base total = computeMultiplierFromScore base total := by
  unfold computeMultiplierFromScore computeMultiplier
  by_cases hb : base = 0
  · simp [hb]
  · simp only [hb, if_false]
    set r := jsRound (total / base) with hr
    by_cases h1 : r < 1
    · have hmin : min 6 r = r := min_eq_right (by omega)
      have hmax : max 1 r = 1 := max_eq_left (by omega)
      simp [h1, hmin, hmax]
    · by_cases h6 : r > 6
      · have hmin : min 6 r = 6 := min_eq_left (by omega)
        simp [h1, h6, hmin]
      · have hmin : min 6 r = r := min_eq_right (by omega)
        have hmax : max 1 r = r := max_eq_right (by omega)
        simp [h1, h6, hmin, hmax]
        omega

/-- C2 -- For an open round `r` and a slot holding an eligible player `pid`,
the live preview multiplier equals `min 6 (k + 1)` where `k` is the number of
consecutive prior rounds `r-1, r-2, ...` in which the player appeared in the
roster (stopping at the first absence); in particular, if the player was
absent from round `r-1` or `r = 1`, the preview multiplier is 1. -/
theorem previewMult_spec (presentOf : ℕ → ℕ → Bool) (playerTeam : ℕ → Option String)
    (activeTeams : Option (List String)) (r pid : ℕ) (team : String)
    (hteam : playerTeam pid = some team)
    (helig : isTeamEligible activeTeams team = true) :
    previewMultForSlot (some pid) playerTeam activeTeams
        (fun p => buildPrevStreakEntry (presentOf p) r) =
      min 6 (consecFrom (presentOf pid) (r - 1) + 1) ∧
    ((r = 1 ∨ presentOf pid (r - 1) = false) →
      previewMultForSlot (some pid) playerTeam activeTeams
          (fun p => buildPrevStreakEntry (presentOf p) r) = 1) := by
  have main : previewMultForSlot (some pid) playerTeam activeTeams
      (fun p => buildPrevStreakEntry (presentOf p) r) =
      min 6 (consecFrom (presentOf pid) (r - 1) + 1) := by
    simp only [previewMultForSlot, hteam, helig, if_true]
    by_cases hr : r ≤ 1
    · have h0 : r - 1 = 0 := by omega
      simp [buildPrevStreakEntry, hr, h0, consecFrom]
    · obtain ⟨m, rfl⟩ : ∃ m, r = m + 2 := ⟨r - 2, by omega⟩
      have h1 : m + 2 - 1 = m + 1 := by omega
      have h2 : m + 2 - 2 = m := by omega
      by_cases hp : presentOf pid (m + 1)
      · simp only [buildPrevStreakEntry, hr, if_false, h1, h2, hp, if_true,
          Option.getD_some]
        have hc : consecFrom (presentOf pid) (m + 1) =
            consecFrom (presentOf pid) m + 1 := by
          simp [consecFrom, hp]
        rw [hc]
        set c := consecFrom (presentOf pid) m with hcdef
        have hmax : max 1 (c + 1) = c + 1 := max_eq_right (by omega)
        rw [hmax]
        have hpos : 0 < min 6 (c + 1) := lt_min_iff.mpr ⟨by omega, by omega⟩
        rw [if_pos hpos]
        rcases le_or_lt (c + 1) 6 with hle | hlt
        · rw [min_eq_right hle]
        · rw [min_eq_left (by omega), min_eq_left (by omega)]
      · have hp' : presentOf pid (m + 1) = false := by simpa using hp
        simp only [buildPrevStreakEntry, hr, if_false, h1, h2, hp',
          Option.getD_none]
        have hc : consecFrom (presentOf pid) (m + 1) = 0 := by
          simp [consecFrom, hp']
        simp [hc]
  refine ⟨main, fun h => ?_⟩
  rw [main]
  rcases h with h | h
  · subst h
    simp [consecFrom]
  · rcases Nat.eq_zero_or_pos (r - 1) with h0 | h0
    · rw [h0]
      simp [consecFrom]
    · obtain ⟨m, hm⟩ : ∃ m, r - 1 = m + 1 := ⟨r - 1 - 1, by omega⟩
      rw [hm] at h ⊢
      simp [consecFrom, h]

/-- Concrete check of `previewMult_spec`: a player rostered in rounds 2 and 3
but not round 1, previewed for round 4, gets multiplier `min 6 (2 + 1) = 3`,
and a player absent from round 3 gets 1. -/
theorem previewMult_spec_witness :
    (fun pt : ℕ → Option String => fun pr : ℕ → ℕ → Bool =>
      previewMultForSlot (some 7) pt none
          (fun p => buildPrevStreakEntry (pr p) 4) =
        min 6 (consecFrom (pr 7) 3 + 1))
      (fun _ => some "KC") (fun _ rn => decide (2 ≤ rn ∧ rn ≤ 3)) ∧
    previewMultForSlot (some 7) (fun _ => some "KC") none
        (fun _ => buildPrevStreakEntry (fun _ => false) 4) = 1 := by
  constructor
  · exact (previewMult_spec (fun _ rn => decide (2 ≤ rn ∧ rn ≤ 3))
      (fun _ => some "KC") none 4 7 "KC" rfl (by decide)).1
  · exact (previewMult_spec (fun _ _ => false) (fun _ => some "KC") none 4 7
      "KC" rfl (by decide)).2 (Or.inr rfl)

/-- C6 -- On the predictor leaderboard each user's net dollars equals
`(total - average) / 100` where the average is taken over all displayed
users, and the sum of net dollars over all displayed users is exactly zero
in exact arithmetic. -/
theorem netDollars_spec (totals : List ℚ) :
    netDollarsList totals =
      totals.map (fun t =>
        (t - totals.sum / (if totals.length = 0 then 1 else (totals.length : ℚ)))
          / 100) ∧
    (netDollarsList totals).sum = 0 := by
  refine ⟨rfl, ?_⟩
  unfold netDollarsList
  rcases List.eq_nil_or_concat totals with h | _
  · subst h; simp
  · by_cases h0 : totals.length = 0
    · rw [List.length_eq_zero] at h0
      subst h0; simp
    · simp only [h0, if_false, sum_map_sub_div]
      rw [mul_div_cancel₀]
      · ring_nf
      · exact_mod_cast h0

/-- C10 -- A predictor game whose `kickoff_at` is null or not a parseable
timestamp is treated as unlocked at every instant: `isGameLocked` returns
`false`, so its pick inputs are never disabled and the per-user predictions
page never reveals an entry for it. -/
theorem nullKickoff_neverLocked (now : ℤ) (gid : ℕ) (entry : Option (ℕ × ℕ)) :
    isGameLocked Kickoff.null now = false ∧
    isGameLocked Kickoff.unparseable now = false ∧
    pickInputDisabled ⟨gid, Kickoff.null⟩ now = false ∧
    pickInputDisabled ⟨gid, Kickoff.unparseable⟩ now = false ∧
    revealedEntry ⟨gid, Kickoff.null⟩ now entry = none ∧
    revealedEntry ⟨gid, Kickoff.unparseable⟩ now entry = none := by
  refine ⟨rfl, rfl, rfl, rfl, ?_, ?_⟩ <;> simp [revealedEntry, isGameLocked]

/-- Anatomy of a row built by the per-game-lock `saveAll`: it comes from an
unlocked game of the round whose pick state is not entirely blank. -/
theorem mem_saveAllRows {games : List PGame} {picks : ℕ → Option Pick}
    {uid : ℕ} {now : ℤ} {r : UpsertRow}
    (hr : r ∈ saveAllRows games picks uid now) :
    ∃ g ∈ games, g.gid = r.game_id ∧ isGameLocked g.kickoff now = false ∧
      ∃ p, picks g.gid = some p ∧ ¬(p.away = none ∧ p.home = none) ∧
        r.user_id = uid ∧ r.away_score_pred = numOrZero p.away ∧
        r.home_score_pred = numOrZero p.home := by
  rw [saveAllRows, List.mem_filterMap] at hr
  obtain ⟨g, hg, hfg⟩ := hr
  by_cases hlock : isGameLocked g.kickoff now
  · rw [if_pos hlock] at hfg
    simp at hfg
  · rw [if_neg hlock] at hfg
    cases hpk : picks g.gid with
    | none => rw [hpk] at hfg; simp at hfg
    | some p =>
      rw [hpk] at hfg
      obtain ⟨pa, ph⟩ := p
      cases pa with
      | none =>
        cases ph with
        | none => simp at hfg
        | some h =>
          dsimp only at hfg
          injection hfg with h2
          subst h2
          exact ⟨g, hg, rfl, by simpa using hlock, ⟨none, some h⟩, hpk,
            by simp, rfl, rfl, rfl⟩
      | some a =>
        cases ph with
        | none =>
          dsimp only at hfg
          injection hfg with h2
          subst h2
          exact ⟨g, hg, rfl, by simpa using hlock, ⟨some a, none⟩, hpk,
            by simp, rfl, rfl, rfl⟩
        | some h =>
          dsimp only at hfg
          injection hfg with h2
          subst h2
          exact ⟨g, hg, rfl, by simpa using hlock, ⟨some a, some h⟩, hpk,
            by simp, rfl, rfl, rfl⟩

/-- An upsert whose rows never mention a game id leaves every entry of that
game untouched. -/
theorem applyUpserts_skips (rows : List UpsertRow)
    (db : ℕ → ℕ → Option (ℚ × ℚ)) (gid u : ℕ) :
    (∀ r ∈ rows, r.game_id ≠ gid) → applyUpserts db rows gid u = db gid u := by
  induction rows generalizing db with
  | nil => intro _; rfl
  | cons r rs ih =>
    intro h
    have hr : r.game_id ≠ gid := h r (List.mem_cons_self r rs)
    have hrs : ∀ x ∈ rs, x.game_id ≠ gid :=
      fun x hx => h x (List.mem_cons_of_mem r hx)
    simp only [applyUpserts, List.foldl_cons] at *
    rw [ih _ hrs]
    exact if_neg (by intro hc; exact hr hc.1.symm)

/-- C7 -- Saving predictor picks on the per-game-lock page: when any
editable game has a half-filled pick or a non-integer or out-of-range score,
`saveAll` reports the validation error and writes nothing; consequently every
row it does upsert carries two integer scores between 0 and 99. -/
theorem saveAll_validates (games : List PGame) (picks : ℕ → Option Pick)
    (uid : ℕ) (now : ℤ) :
    (hasAnyInvalid games picks now = true →
      saveAll games picks uid now = Except.error saveErrorMsg) ∧
    (∀ rows, saveAll games picks uid now = Except.ok rows → ∀ r ∈ rows,
      r.away_score_pred.den = 1 ∧ 0 ≤ r.away_score_pred ∧
        r.away_score_pred ≤ 99 ∧ r.home_score_pred.den = 1 ∧
        0 ≤ r.home_score_pred ∧ r.home_score_pred ≤ 99) := by
  constructor
  · intro h
    simp [saveAll, h]
  · intro rows hok r hr
    by_cases hinv : hasAnyInvalid games picks now
    · simp [saveAll, hinv] at hok
    · rw [saveAll, if_neg hinv] at hok
      injection hok with h2
      subst h2
      obtain ⟨g, hg, _, hlock, p, hpk, hblank, _, ha, hh⟩ := mem_saveAllRows hr
      have heq : hasAnyInvalid games picks now = false := by
        simpa using hinv
      rw [hasAnyInvalid, List.any_eq_false] at heq
      have hvalid := heq g hg
      rw [hlock] at hvalid
      simp only [Bool.false_eq_true, if_false, hpk] at hvalid
      obtain ⟨pa, ph⟩ := p
      cases pa with
      | none =>
        cases ph with
        | none => exact absurd ⟨rfl, rfl⟩ hblank
        | some h => simp [pickInvalid] at hvalid
      | some a =>
        cases ph with
        | none => simp [pickInvalid] at hvalid
        | some h =>
          rw [pickInvalid] at hvalid
          simp only [decide_eq_true_eq, Bool.decide_eq_false] at hvalid
          push_neg at hvalid
          obtain ⟨hd1, hd2, h0a, h0h, h99a, h99h⟩ := hvalid
          rw [ha, hh]
          exact ⟨hd1, h0a, h99a, hd2, h0h, h99h⟩

/-- Concrete check of `saveAll_validates`: with one open and one locked game
and valid picks, the single upserted row (3, 7) has integer scores in
range. -/
theorem saveAll_validates_witness :
    (⟨1, 5, 3, 7⟩ : UpsertRow).away_score_pred.den = 1 ∧
      0 ≤ (⟨1, 5, 3, 7⟩ : UpsertRow).away_score_pred ∧
      (⟨1, 5, 3, 7⟩ : UpsertRow).away_score_pred ≤ 99 ∧
      (⟨1, 5, 3, 7⟩ : UpsertRow).home_score_pred.den = 1 ∧
      0 ≤ (⟨1, 5, 3, 7⟩ : UpsertRow).home_score_pred ∧
      (⟨1, 5, 3, 7⟩ : UpsertRow).home_score_pred ≤ 99 :=
  (saveAll_validates exGames exPicks 5 0).2 (saveAllRows exGames exPicks 5 0)
    rfl ⟨1, 5, 3, 7⟩ (by decide)

/-- C8 -- A save never touches locked games: every upsert row built by the
per-game-lock `saveAll` belongs to a game that is not locked, so applying
the upsert leaves stored entries of locked games unchanged; and on the
round-lock variant a save on a predictor-locked round writes nothing at
all. -/
theorem lockedGames_untouched (games : List PGame) (picks : ℕ → Option Pick)
    (uid : ℕ) (now : ℤ) :
    (∀ r ∈ saveAllRows games picks uid now,
      ∃ g ∈ games, g.gid = r.game_id ∧ isGameLocked g.kickoff now = false) ∧
    (∀ db gid u,
      (∀ g ∈ games, g.gid = gid → isGameLocked g.kickoff now = true) →
      applyUpserts db (saveAllRows games picks uid now) gid u = db gid u) ∧
    saveAllRoundMode true games picks uid = none := by
  refine ⟨?_, ?_, rfl⟩
  · intro r hr
    obtain ⟨g, hg, hgid, hlock, _⟩ := mem_saveAllRows hr
    exact ⟨g, hg, hgid, hlock⟩
  · intro db gid u hall
    apply applyUpserts_skips
    intro r hr hcontra
    obtain ⟨g, hg, hgid, hlock, _⟩ := mem_saveAllRows hr
    exact absurd (hall g hg (hgid.trans hcontra)) (by simp [hlock])

/-- Concrete check of `lockedGames_untouched`: the row for open game 1 comes
from an unlocked game, and the upsert leaves locked game 2 untouched. -/
theorem lockedGames_untouched_witness :
    (∃ g ∈ exGames, g.gid = (⟨1, 5, 3, 7⟩ : UpsertRow).game_id ∧
      isGameLocked g.kickoff 0 = false) ∧
    applyUpserts (fun _ _ => none) (saveAllRows exGames exPicks 5 0) 2 5 =
      (fun _ _ => (none : Option (ℚ × ℚ))) 2 5 :=
  ⟨(lockedGames_untouched exGames exPicks 5 0).1 ⟨1, 5, 3, 7⟩ (by decide),
   (lockedGames_untouched exGames exPicks 5 0).2.1 (fun _ _ => none) 2 5
     (by decide)⟩

/-- C9 -- Opening My Team for a round with number greater than 1 and no
roster yet attempts the auto-copy: when the previous round and its roster
exist, every previous slot is copied into the new roster, preserving the
slot name; a slot keeps its player exactly when the player still exists and
its team is eligible, and otherwise is copied with an empty player
reference. -/
theorem autoCopy_spec (curN : ℕ) (rows : List PrevRosterRow)
    (pt : ℕ → Option String) (act : Option (List String)) (nid : ℕ)
    (hR : 1 < curN) (hne : rows ≠ []) :
    loadRosterAutoCopy none curN true (some rows) pt act nid =
      some (rows.map (autoCopyRow pt act nid)) ∧
    ∀ row ∈ rows,
      autoCopyRow pt act nid row ∈ rows.map (autoCopyRow pt act nid) ∧
      (autoCopyRow pt act nid row).slot = row.slot ∧
      (autoCopyRow pt act nid row).roster_id = nid ∧
      (∀ pid, row.player_id = some pid →
        (autoCopyRow pt act nid row).player_id =
          match pt pid with
          | none => none
          | some team =>
            if isTeamEligible act team then some pid else none) ∧
      (row.player_id = none →
        (autoCopyRow pt act nid row).player_id = none) := by
  constructor
  · rw [loadRosterAutoCopy, tryAutoCopyFromPreviousRound]
    rw [if_neg (by omega)]
    simp only [Bool.not_true, Bool.false_eq_true, if_false]
    rw [if_neg (by simpa [List.isEmpty_iff] using hne)]
  · intro row hrow
    refine ⟨List.mem_map_of_mem _ hrow, rfl, rfl, ?_, ?_⟩
    · intro pid hp
      simp [autoCopyRow, hp]
    · intro hp
      simp [autoCopyRow, hp]

/-- Concrete check of `autoCopy_spec`: for round 2 the three previous slots
are copied; the existing, eligible QB (player 7, KC) is kept. -/
theorem autoCopy_spec_witness :
    loadRosterAutoCopy none 2 true (some exPrevRows) exPT none 42 =
      some (exPrevRows.map (autoCopyRow exPT none 42)) ∧
    (autoCopyRow exPT none 42 ⟨"QB", some 7⟩).player_id = some 7 :=
  ⟨(autoCopy_spec 2 exPrevRows exPT none 42 (by decide) (by decide)).1,
   by
    have h := ((autoCopy_spec 2 exPrevRows exPT none 42 (by decide)
      (by decide)).2 ⟨"QB", some 7⟩ (by decide)).2.2.2.1 7 rfl
    rw [h]
    rfl⟩

/-- C3 -- Winner points of a finalized game with `n` entries of which `c`
predicted the actual winner: a predicted tie is always incorrect; incorrect
entries get 0; `c = 0` gives everyone 0; a correct entry gets exactly 100
when `c / n ≥ 1/2` and `(n - c) * 100 / c` when `0 < c` and `c / n < 1/2`. -/
theorem winnerPoints_spec (entries : List PredEntry) (fa fh : ℕ)
    (e : PredEntry) :
    (e.awayPred = e.homePred → entryCorrect fa fh e = false) ∧
    (entryCorrect fa fh e = false → winnerPointsFor entries fa fh e = 0) ∧
    ((entries.filter (entryCorrect fa fh)).length = 0 →
      winnerPointsFor entries fa fh e = 0) ∧
    (entryCorrect fa fh e = true →
      0 < (entries.filter (entryCorrect fa fh)).length →
      entries.length ≤ 2 * (entries.filter (entryCorrect fa fh)).length →
      winnerPointsFor entries fa fh e = 100) ∧
    (entryCorrect fa fh e = true →
      0 < (entries.filter (entryCorrect fa fh)).length →
      2 * (entries.filter (entryCorrect fa fh)).length < entries.length →
      winnerPointsFor entries fa fh e =
        ((entries.length : ℚ) -
            ((entries.filter (entryCorrect fa fh)).length : ℚ)) * 100 /
          ((entries.filter (entryCorrect fa fh)).length : ℚ)) := by
  refine ⟨?_, ?_, ?_, ?_, ?_⟩
  · intro h
    simp [entryCorrect, predWinner, h]
  · intro h
    simp only [winnerPointsFor]
    rw [if_pos h]
  · intro h
    simp only [winnerPointsFor, h]
    by_cases hc : entryCorrect fa fh e = false <;> simp [hc]
  · intro hc hcpos hn
    simp only [winnerPointsFor]
    rw [if_neg (by simp [hc]), if_neg (by omega), if_pos hn]
  · intro hc hcpos hn
    simp only [winnerPointsFor]
    rw [if_neg (by simp [hc]), if_neg (by omega), if_neg (by omega)]

/-- Concrete check of `winnerPoints_spec`, the worked scenario of the spec:
7 entries, 2 correct → each correct entry earns `(7 - 2) * 100 / 2 = 250`
winner points. -/
theorem winnerPoints_spec_witness :
    winnerPointsFor exEntries 21 17 ⟨1, 24, 14⟩ = 250 := by
  have h := (winnerPoints_spec exEntries 21 17 ⟨1, 24, 14⟩).2.2.2.2
    (by decide) (by decide) (by decide)
  rw [h]
  rw [show (exEntries.filter (entryCorrect 21 17)).length = 2 from rfl,
    show exEntries.length = 7 from rfl]
  norm_num

/-- Inserting preserves length. -/
theorem length_insertBy {α : Type} (le : α → α → Bool) (x : α) (l : List α) :
    (insertBy le x l).length = l.length + 1 := by
  induction l with
  | nil => rfl
  | cons y ys ih =>
    rw [insertBy]
    by_cases h : le x y <;> simp [h, ih]

/-- Insertion sort preserves length. -/
theorem length_sortBy {α : Type} (le : α → α → Bool) (l : List α) :
    (sortBy le l).length = l.length := by
  induction l with
  | nil => rfl
  | cons x xs ih => rw [sortBy, length_insertBy, ih, List.length_cons]

/-- The amounts handed out by `distributeShares` starting at rank `r` over a
list `l` sum to the total per-rank amount of ranks `r, ..., r + l.length - 1`,
whatever the tie structure. -/
theorem distributeShares_sum {α : Type} (pct : ℕ → ℚ) (key : α → ℕ × ℕ × ℕ) :
    ∀ n (l : List α), l.length ≤ n → ∀ r,
      ((distributeShares pct key r l).map Prod.snd).sum =
        ∑ i ∈ Finset.Ico r (r + l.length), pct i := by
  intro n
  induction n with
  | zero =>
    intro l hl r
    have : l = [] := List.eq_nil_of_length_eq_zero (by omega)
    subst this
    simp [distributeShares]
  | succ n ih =>
    intro l hl r
    match l with
    | [] => simp [distributeShares]
    | x :: xs =>
      rw [distributeShares]
      set q := fun y => key y = key x with hq
      set grp := x :: xs.takeWhile q with hgrp
      set rest := xs.dropWhile q with hrest
      have hlen : grp.length + rest.length = (x :: xs).length := by
        have := congrArg List.length (List.takeWhile_append_dropWhile q xs)
        simp only [List.length_append] at this
        simp only [hgrp, hrest, List.length_cons]
        omega
      have hrest_le : rest.length ≤ n := by
        have := (List.dropWhile_sublist q (l := xs)).length_le
        simp only [List.length_cons] at hl
        simp only [hrest]
        omega
      rw [List.map_append, List.sum_append, List.map_map]
      have hgrp_pos : 0 < grp.length := by simp [hgrp]
      have hconst : (grp.map (Prod.snd ∘ fun y =>
          (y, (∑ i ∈ Finset.Ico r (r + grp.length), pct i) / grp.length))).sum
          = grp.length •
            ((∑ i ∈ Finset.Ico r (r + grp.length), pct i) / grp.length) := by
        rw [show (Prod.snd ∘ fun y : α =>
          (y, (∑ i ∈ Finset.Ico r (r + grp.length), pct i) / grp.length)) =
          fun _ => (∑ i ∈ Finset.Ico r (r + grp.length), pct i) / grp.length
          from rfl]
        rw [List.map_const', List.sum_replicate]
      rw [hconst, ih rest hrest_le (r + grp.length)]
      rw [nsmul_eq_mul, mul_div_cancel₀]
      · rw [show r + grp.length + rest.length = r + (x :: xs).length by omega]
        exact Finset.sum_Ico_consecutive pct (by omega) (by omega)
      · exact_mod_cast Nat.pos_iff_ne_zero.mp hgrp_pos

/-- Every amount handed out by `distributeShares` is an interval sum of the
per-rank amounts divided by a group size. -/
theorem distributeShares_snd_shape {α : Type} (pct : ℕ → ℚ)
    (key : α → ℕ × ℕ × ℕ) :
    ∀ n (l : List α), l.length ≤ n → ∀ r z,
      z ∈ distributeShares pct key r l →
      ∃ a b m : ℕ, z.2 = (∑ i ∈ Finset.Ico a b, pct i) / m := by
  intro n
  induction n with
  | zero =>
    intro l hl r z hz
    have : l = [] := List.eq_nil_of_length_eq_zero (by omega)
    subst this
    simp [distributeShares] at hz
  | succ n ih =>
    intro l hl r z hz
    match l with
    | [] => simp [distributeShares] at hz
    | x :: xs =>
      rw [distributeShares] at hz
      set q := fun y => key y = key x with hq
      set grp := x :: xs.takeWhile q with hgrp
      set rest := xs.dropWhile q with hrest
      rw [List.mem_append] at hz
      rcases hz with hz | hz
      · rw [List.mem_map] at hz
        obtain ⟨y, _, hy⟩ := hz
        refine ⟨r, r + grp.length, grp.length, ?_⟩
        rw [← hy]
      · have hrest_le : rest.length ≤ n := by
          have := (List.dropWhile_sublist q (l := xs)).length_le
          simp only [List.length_cons] at hl
          simp only [hrest]
          omega
        exact ih rest hrest_le (r + grp.length) z hz

/-- The sum of `L.getD i 0` over `i < n` is the sum of `L` once `n` covers
the whole list. -/
theorem sum_range_getD (L : List ℚ) :
    ∀ n, L.length ≤ n → ∑ i ∈ Finset.range n, L.getD i 0 = L.sum := by
  induction L with
  | nil => intro n _; simp
  | cons a L ih =>
    intro n hn
    obtain ⟨m, rfl⟩ : ∃ m, n = m + 1 :=
      ⟨n - 1, by simp at hn; omega⟩
    rw [Finset.sum_range_succ']
    simp only [List.getD_cons_succ, List.getD_cons_zero, List.sum_cons]
    rw [ih m (by simp at hn; omega)]
    ring

/-- C4 -- The accuracy pot of a finalized game with `n` entries and
`k = ⌊n/2⌋` winners: when `k = 0` no accuracy points are awarded (every
distributed amount is 0), and when `1 ≤ k ≤ 4` the amounts distributed by
the split tables, with ties sharing their ranks' percentages equally, sum to
exactly `(n - k) * 100`. -/
theorem accuracyPot_spec (entries : List PredEntry) (fa fh : ℕ)
    (hK : entries.length / 2 ≤ 4) :
    (entries.length / 2 = 0 →
      ∀ z ∈ accuracyDistribution entries fa fh, z.2 = 0) ∧
    (1 ≤ entries.length / 2 →
      ((accuracyDistribution entries fa fh).map Prod.snd).sum =
        ((entries.length : ℚ) - ((entries.length / 2 : ℕ) : ℚ)) * 100) := by
  constructor
  · intro h0 z hz
    simp only [accuracyDistribution] at hz
    obtain ⟨a, b, m, hzf⟩ := distributeShares_snd_shape _ _ _ _ le_rfl _ z hz
    rw [hzf, h0, show splitTable 0 = [] from rfl]
    simp
  · intro h1
    simp only [accuracyDistribution]
    have hlen : (sortBy (fun a b => keyLe (errKey fa fh a) (errKey fa fh b))
        entries).length = entries.length := length_sortBy _ _
    rw [distributeShares_sum _ _ _ _ le_rfl 0, hlen, Nat.zero_add,
      ← Finset.range_eq_Ico]
    set K := entries.length / 2 with hKdef
    clear_value K
    have hd : K ≤ entries.length := hKdef ▸ Nat.div_le_self _ _
    have hl2 : (splitTable K).length = K := by
      interval_cases K <;> rfl
    have htbl_len : (splitTable K).length ≤ entries.length := by omega
    have htbl_sum : (splitTable K).sum = 100 := by
      interval_cases K
      · rw [show splitTable 1 = [100] from rfl]; norm_num
      · rw [show splitTable 2 = [60, 40] from rfl]; norm_num
      · rw [show splitTable 3 = [45, 33, 22] from rfl]; norm_num
      · rw [show splitTable 4 = [40, 30, 20, 10] from rfl]; norm_num
    calc
      ∑ i ∈ Finset.range entries.length,
          ((entries.length : ℚ) - (K : ℚ)) * 100 *
            (splitTable K).getD i 0 / 100
        = ((entries.length : ℚ) - (K : ℚ)) * 100 *
            (∑ i ∈ Finset.range entries.length,
              (splitTable K).getD i 0) / 100 := by
          rw [Finset.mul_sum, Finset.sum_div]
      _ = ((entries.length : ℚ) - (K : ℚ)) * 100 :=
        by rw [sum_range_getD _ _ htbl_len, htbl_sum]; ring

/-- Concrete check of `accuracyPot_spec`, the worked scenario of the spec:
7 entries, `k = 3`, pot `(7 - 3) * 100 = 400`; the distributed accuracy
amounts sum to the pot. -/
theorem accuracyPot_spec_witness :
    ((accuracyDistribution exEntries 21 17).map Prod.snd).sum =
      ((exEntries.length : ℚ) - ((exEntries.length / 2 : ℕ) : ℚ)) * 100 :=
  (accuracyPot_spec exEntries 21 17 (by decide)).2 (by decide)

/-- C5 -- One `recalc` pass is idempotent: running it a second time with
unchanged persisted inputs leaves both derived stores (the per-game
predictor point rows and the per-slot roster spot scores) exactly as the
first run wrote them. -/
theorem recalc_idempotent (s : EngineState) :
    (recalc (recalc s)).points = (recalc s).points ∧
    (recalc (recalc s)).spotScores = (recalc s).spotScores := by
  constructor
  · funext gi u
    simp only [recalc]
    cases hf : s.games.find? (fun g => g.gid = gi) with
    | none => simp [hf]
    | some g =>
      by_cases hfin : g.isFin
      · simp [hf, hfin]
      · simp [hf, hfin]
  · funext u slot
    rfl

end PlayoffChallenge
